import Mathlib

/-!
Verification of the 4-dimensional Z-order rectangle codec (`z_order.go`) and of
the span-rectangle and coordinate-mapping computations of the accompanying demo
program. Machine integers are modelled as `Nat`; the Go `uint64` key domain is
expressed through explicit `k < 2 ^ 64` hypotheses and the bit loops of the
source are modelled as folds over `List.range`.
-/

namespace ZOrder

/-- Constant `maxDimBits = 16` from the source: 64 bits / 4 dimensions. -/
def maxDimBits : Nat := 16

/-- Constant `maxDimVal = (1 << 16) - 1` from the source: the maximum value of a
dimension. -/
def maxDimVal : Nat := (1 <<< 16) - 1

/-- The decode loop of `lookupVal` in the source, generalised over the number
`n` of iterations: for each `i < n`, tests `queryMask = 1 << (i*4 + start)`
against `val` and, when set, sets bit `i` of the result. -/
def lookupAux (val start n : Nat) : Nat :=
  (List.range n).foldl
    (fun res i => if (1 <<< (i * 4 + start)) &&& val > 0 then res ||| (1 <<< i) else res) 0

/-- Function `lookupVal(val uint64, start int) uint` of the source: extracts the
16-bit field stored at bit positions `i*4 + start`, `i = 0 .. 15`. -/
def lookupVal (val start : Nat) : Nat := lookupAux val start maxDimBits

/-- The clear mask built inside `setVal` in the source, generalised over the
number `n` of iterations: starts from `math.MaxUint64` and XORs away the bits
`i*4 + start` for `i < n`. -/
def clearMaskAux (start n : Nat) : Nat :=
  (List.range n).foldl (fun m i => m ^^^ (1 <<< (i * 4 + start))) (2 ^ 64 - 1)

/-- The write loop of `setVal` in the source, generalised over the number `n`
of iterations: for each bit `i < n` set in `varVal`, sets bit `i*4 + start` of
the accumulator. -/
def setAux (base varVal start n : Nat) : Nat :=
  (List.range n).foldl
    (fun res i => if varVal &&& (1 <<< i) > 0 then res ||| (1 <<< (i * 4 + start)) else res) base

/-- Function `setVal(encodedVal uint64, varVal uint, start int) uint64` of the
source: clears the 16 bit slots `i*4 + start` of `encodedVal` with the clear
mask, then writes bit `i` of `varVal` into slot `i*4 + start` for `i = 0 .. 15`. -/
def setVal (encodedVal varVal start : Nat) : Nat :=
  setAux (encodedVal &&& clearMaskAux start maxDimBits) varVal start maxDimBits

/-- Struct `RectHash` of the source: a 4-D rectangle encoded by interleaving the
bits of the dimensions (x0, x1, y0, y1) into one 64-bit value. -/
structure RectHash where
  Val : Nat

/-- Accessor `X0`: dimension offset 3. -/
def RectHash.X0 (r : RectHash) : Nat := lookupVal r.Val 3

/-- Mutator `SetX0` (modelled as returning the new value). -/
def RectHash.SetX0 (r : RectHash) (val : Nat) : RectHash := ⟨setVal r.Val val 3⟩

/-- Accessor `X1`: dimension offset 2. -/
def RectHash.X1 (r : RectHash) : Nat := lookupVal r.Val 2

/-- Mutator `SetX1`. -/
def RectHash.SetX1 (r : RectHash) (val : Nat) : RectHash := ⟨setVal r.Val val 2⟩

/-- Accessor `Y0`: dimension offset 1. -/
def RectHash.Y0 (r : RectHash) : Nat := lookupVal r.Val 1

/-- Mutator `SetY0`. -/
def RectHash.SetY0 (r : RectHash) (val : Nat) : RectHash := ⟨setVal r.Val val 1⟩

/-- Accessor `Y1`: dimension offset 0. -/
def RectHash.Y1 (r : RectHash) : Nat := lookupVal r.Val 0

/-- Mutator `SetY1`. -/
def RectHash.SetY1 (r : RectHash) (val : Nat) : RectHash := ⟨setVal r.Val val 0⟩

/-- Constant `inc = 1 << (maxDimBits - precisionBits)` from the demo program,
generalised over `precisionBits` (the demo fixes `precisionBits = 4`). -/
def inc (precisionBits : Nat) : Nat := 1 <<< (maxDimBits - precisionBits)

/-- `truncBits := (maxDimBits - precisionBits) * 4` computed in the demo
program's `main`. -/
def truncBits (precisionBits : Nat) : Nat := (maxDimBits - precisionBits) * 4

/-- `minRectVal := (rect.Val >> truncBits) << truncBits` computed in `main`:
the truncated bucket key, with the low `truncBits` bits cleared. -/
def minRectVal (key precisionBits : Nat) : Nat :=
  (key >>> truncBits precisionBits) <<< truncBits precisionBits

/-- The minimum span rectangle built in `main`: starting from an all-zero key,
set x0 and y0 to the truncated key's fields plus `inc`, and x1, y1 to the
truncated key's fields unchanged. -/
def minSpanRect (key precisionBits : Nat) : RectHash :=
  let minRect : RectHash := ⟨minRectVal key precisionBits⟩
  ((((RectHash.mk 0).SetX0 (minRect.X0 + inc precisionBits)).SetY0
      (minRect.Y0 + inc precisionBits)).SetX1 minRect.X1).SetY1 minRect.Y1

/-- The maximum span rectangle built in `main`: starting from an all-zero key,
set x0, y0 to the truncated key's fields unchanged and x1, y1 to the truncated
key's fields plus `inc`. -/
def maxSpanRect (key precisionBits : Nat) : RectHash :=
  let minRect : RectHash := ⟨minRectVal key precisionBits⟩
  ((((RectHash.mk 0).SetX0 minRect.X0).SetY0 minRect.Y0).SetX1
      (minRect.X1 + inc precisionBits)).SetY1 (minRect.Y1 + inc precisionBits)

/-- No-overflow side condition for the span rectangles at precision `q`: adding
the step `inc q` to any field decoded from the truncated key stays within the
16-bit field range, so no field wraps around when re-encoded. -/
abbrev noOverflow (k q : Nat) : Prop :=
  lookupVal (minRectVal k q) 3 + inc q < 2 ^ 16 ∧
  lookupVal (minRectVal k q) 2 + inc q < 2 ^ 16 ∧
  lookupVal (minRectVal k q) 1 + inc q < 2 ^ 16 ∧
  lookupVal (minRectVal k q) 0 + inc q < 2 ^ 16

/-- Per-axis gap between the two span rectangles at the low x corner:
x0 of the minimum span rectangle minus x0 of the maximum span rectangle. -/
def gapX0 (k p : Nat) : ℤ :=
  ((minSpanRect k p).X0 : ℤ) - ((maxSpanRect k p).X0 : ℤ)

/-- Per-axis gap at the high x corner: x1 of the maximum span rectangle minus
x1 of the minimum span rectangle. -/
def gapX1 (k p : Nat) : ℤ :=
  ((maxSpanRect k p).X1 : ℤ) - ((minSpanRect k p).X1 : ℤ)

/-- Per-axis gap at the low y corner. -/
def gapY0 (k p : Nat) : ℤ :=
  ((minSpanRect k p).Y0 : ℤ) - ((maxSpanRect k p).Y0 : ℤ)

/-- Per-axis gap at the high y corner. -/
def gapY1 (k p : Nat) : ℤ :=
  ((maxSpanRect k p).Y1 : ℤ) - ((minSpanRect k p).Y1 : ℤ)

/-- Function `Ratio(val uint) float32` of the demo program:
`float32(val) / maxDimVal`, modelled over the rationals. -/
def Ratio (val : Nat) : ℚ := (val : ℚ) / (maxDimVal : ℚ)

/-- Function `Int(val float32) uint` of the demo program:
`uint((val / 100) * maxDimVal)`, modelled over the rationals with the
float-to-uint conversion expressed as floor (the inputs used are nonnegative). -/
def Int (val : ℚ) : Nat := (⌊val / 100 * (maxDimVal : ℚ)⌋).toNat

/-- Modelled from the spec: `toCoordinate(value) -> x` with
`x = value / (2^(W/D) - 1) * domainMax` and `domainMax = 100`, the formula the
spec gives for the coordinate mapper's inverse direction. -/
def specToCoordinate (val : Nat) : ℚ := (val : ℚ) / ((2 : ℚ) ^ 16 - 1) * 100

/-- Unfolding one iteration of a loop modelled as a fold over `List.range`. -/
theorem foldl_range_succ (f : Nat → Nat → Nat) (a n : Nat) :
    (List.range (n + 1)).foldl f a = f ((List.range n).foldl f a) n := by
  rw [List.range_succ, List.foldl_append, List.foldl_cons, List.foldl_nil]

/-- The mask test of the decode loop reads one bit of the key. -/
theorem one_shiftLeft_and_pos (val m : Nat) :
    ((1 <<< m) &&& val > 0) = (val.testBit m = true) := by
  rw [Nat.one_shiftLeft, Nat.two_pow_and]
  cases h : val.testBit m <;> simp [h, Nat.two_pow_pos]

/-- The bit test of the write loop reads one bit of the field value. -/
theorem and_one_shiftLeft_pos (val m : Nat) :
    (val &&& (1 <<< m) > 0) = (val.testBit m = true) := by
  rw [Nat.and_comm]
  exact one_shiftLeft_and_pos val m

/-- Bit-level description of the decode loop: bit `j` of the result after `n`
iterations is bit `j*4 + start` of the key, provided `j < n`. -/
theorem testBit_lookupAux (val start n j : Nat) :
    (lookupAux val start n).testBit j
      = (decide (j < n) && val.testBit (j * 4 + start)) := by
  induction n with
  | zero => simp [lookupAux]
  | succ n ih =>
    have step : lookupAux val start (n + 1)
        = if (1 <<< (n * 4 + start)) &&& val > 0
          then lookupAux val start n ||| (1 <<< n) else lookupAux val start n := by
      unfold lookupAux
      exact foldl_range_succ _ _ n
    rw [step]
    simp only [one_shiftLeft_and_pos]
    by_cases h : val.testBit (n * 4 + start) = true
    · rw [if_pos h, Nat.testBit_or, ih, Nat.one_shiftLeft, Nat.testBit_two_pow]
      by_cases hj : j = n
      · simp [hj, h, Nat.lt_succ_self]
      · have h2 : (j < n + 1) ↔ (j < n) := by omega
        simp [show n ≠ j from fun e => hj e.symm, h2]
    · rw [if_neg h, ih]
      have hb : val.testBit (n * 4 + start) = false := by
        cases hx : val.testBit (n * 4 + start)
        · rfl
        · exact absurd hx h
      by_cases hj : j = n
      · simp [hj, hb]
      · have h2 : (j < n + 1) ↔ (j < n) := by omega
        simp [h2]

/-- Bit-level description of the clear mask after `n` iterations: all 64 key
bits are set except the slots `i*4 + start` with `i < n`. -/
theorem testBit_clearMaskAux (start n j : Nat) (hs : start < 4) (hn : n ≤ 16) :
    (clearMaskAux start n).testBit j
      = (decide (j < 64) && !(decide (j % 4 = start) && decide (j / 4 < n))) := by
  induction n with
  | zero =>
    have h0 : clearMaskAux start 0 = 2 ^ 64 - 1 := rfl
    rw [h0, Nat.testBit_two_pow_sub_one]
    simp
  | succ n ih =>
    have step : clearMaskAux start (n + 1)
        = clearMaskAux start n ^^^ (1 <<< (n * 4 + start)) := by
      unfold clearMaskAux
      exact foldl_range_succ _ _ n
    rw [step, Nat.testBit_xor, ih (by omega), Nat.one_shiftLeft, Nat.testBit_two_pow]
    by_cases hj : j = n * 4 + start
    · subst hj
      simp [show (n * 4 + start) % 4 = start from by omega,
            show (n * 4 + start) / 4 = n from by omega,
            show n * 4 + start < 64 from by omega,
            show n < n + 1 from by omega]
    · by_cases hm : j % 4 = start
      · have h2 : (j / 4 < n + 1) ↔ (j / 4 < n) := by omega
        simp [hm, h2, show ¬(n * 4 + start = j) from by omega]
      · simp [hm, show ¬(n * 4 + start = j) from by omega]

/-- Bit-level description of the write loop after `n` iterations: the slots
`i*4 + start` with `i < n` acquire the bits of `varVal`; everything else keeps
the bits of the base value. -/
theorem testBit_setAux (base varVal start n j : Nat) (hs : start < 4) :
    (setAux base varVal start n).testBit j
      = (base.testBit j
          || (decide (j % 4 = start) && decide (j / 4 < n) && varVal.testBit (j / 4))) := by
  induction n with
  | zero => simp [setAux]
  | succ n ih =>
    have step : setAux base varVal start (n + 1)
        = if varVal &&& (1 <<< n) > 0
          then setAux base varVal start n ||| (1 <<< (n * 4 + start))
          else setAux base varVal start n := by
      unfold setAux
      exact foldl_range_succ _ _ n
    rw [step]
    simp only [and_one_shiftLeft_pos]
    by_cases h : varVal.testBit n = true
    · rw [if_pos h, Nat.testBit_or, ih, Nat.one_shiftLeft, Nat.testBit_two_pow]
      by_cases hj : j = n * 4 + start
      · subst hj
        simp [show (n * 4 + start) % 4 = start from by omega,
              show (n * 4 + start) / 4 = n from by omega, h,
              show n < n + 1 from by omega]
      · by_cases hm : j % 4 = start
        · have h2 : (j / 4 < n + 1) ↔ (j / 4 < n) := by omega
          simp [hm, h2, show ¬(n * 4 + start = j) from by omega]
        · simp [hm, show ¬(n * 4 + start = j) from by omega]
    · rw [if_neg h, ih]
      have hb : varVal.testBit n = false := by
        cases hx : varVal.testBit n
        · rfl
        · exact absurd hx h
      by_cases hm : j % 4 = start
      · by_cases hd : j / 4 = n
        · simp [hd, hb]
        · have h2 : (j / 4 < n + 1) ↔ (j / 4 < n) := by omega
          simp [h2]
      · simp [hm]

/-- Bit-level characterisation of `setVal`: inside the written dimension's
slots the key holds the bits of the new field value; everywhere else (within
the 64-bit word) the original key's bits survive. -/
theorem testBit_setVal (k v start : Nat) (hs : start < 4) (j : Nat) :
    (setVal k v start).testBit j
      = if j % 4 = start ∧ j / 4 < 16 then v.testBit (j / 4)
        else (k.testBit j && decide (j < 64)) := by
  unfold setVal maxDimBits
  rw [testBit_setAux _ _ _ _ _ hs, Nat.testBit_and,
      testBit_clearMaskAux _ _ _ hs (by omega)]
  by_cases hm : j % 4 = start
  · by_cases hd : j / 4 < 16
    · rw [if_pos ⟨hm, hd⟩]
      simp [hm, hd, show j < 64 from by omega]
    · rw [if_neg (by tauto)]
      simp [hm, hd]
  · rw [if_neg (by tauto)]
    simp [hm]

/-- Bit-level characterisation of `lookupVal`: bit `j` of the decoded field is
bit `j*4 + start` of the key, for `j < 16`. -/
theorem testBit_lookupVal (val start j : Nat) :
    (lookupVal val start).testBit j
      = (decide (j < 16) && val.testBit (j * 4 + start)) :=
  testBit_lookupAux val start maxDimBits j

/-- Reading back the dimension just written returns the written value reduced
modulo `2^16` (the write loop only consults the low 16 bits of the value). -/
theorem lookupVal_setVal_self (k v start : Nat) (hs : start < 4) :
    lookupVal (setVal k v start) start = v % 2 ^ 16 := by
  apply Nat.eq_of_testBit_eq
  intro i
  rw [testBit_lookupVal, testBit_setVal _ _ _ hs, Nat.testBit_mod_two_pow]
  by_cases hi : i < 16
  · rw [if_pos ⟨by omega, by omega⟩, show (i * 4 + start) / 4 = i from by omega]
  · simp [hi]

/-- Writing one dimension leaves every other dimension's decoded value
untouched. -/
theorem lookupVal_setVal_other (k v start other : Nat) (hs : start < 4)
    (ho : other < 4) (hne : other ≠ start) :
    lookupVal (setVal k v start) other = lookupVal k other := by
  apply Nat.eq_of_testBit_eq
  intro i
  rw [testBit_lookupVal, testBit_lookupVal, testBit_setVal _ _ _ hs]
  by_cases hi : i < 16
  · rw [if_neg (by omega)]
    simp [show i * 4 + other < 64 from by omega]
  · simp [hi]

/-- A decoded field always fits in 16 bits. -/
theorem lookupVal_lt (val start : Nat) : lookupVal val start < 2 ^ 16 := by
  apply Nat.lt_pow_two_of_testBit
  intro i hi
  rw [testBit_lookupVal]
  simp [show ¬i < 16 from by omega]

/-- The step constant of the demo equals `2^(16 - precisionBits)`. -/
theorem inc_eq (p : Nat) : inc p = 2 ^ (16 - p) := by
  unfold inc maxDimBits
  exact Nat.one_shiftLeft _

/-- The maximum dimension value is `2^16 - 1`. -/
theorem maxDimVal_eq : maxDimVal = 2 ^ 16 - 1 := by decide

/-- Truncating the interleaved key commutes with decoding: decoding a field of
the truncated bucket key gives the field of the original key with its low
`16 - p` bits cleared. -/
theorem lookupVal_minRectVal (k p d : Nat) (hd : d < 4) (hp : p ≤ 16) :
    lookupVal (minRectVal k p) d = (lookupVal k d >>> (16 - p)) <<< (16 - p) := by
  apply Nat.eq_of_testBit_eq
  intro i
  rw [testBit_lookupVal]
  unfold minRectVal truncBits maxDimBits
  rw [Nat.testBit_shiftLeft, Nat.testBit_shiftRight, Nat.testBit_shiftLeft,
      Nat.testBit_shiftRight, testBit_lookupVal]
  by_cases hi : i < 16
  · by_cases his : 16 - p ≤ i
    · have e2 : (16 - p) * 4 ≤ i * 4 + d := by omega
      have e3 : (16 - p) * 4 + (i * 4 + d - (16 - p) * 4) = i * 4 + d := by omega
      have e1 : (16 - p) + (i - (16 - p)) = i := by omega
      simp [hi, his, e2, e3, e1, show i - (16 - p) < 16 from by omega,
            show (i - (16 - p)) * 4 + ((16 - p) * 4 + d) = i * 4 + d from by omega]
    · have e2 : ¬(16 - p) * 4 ≤ i * 4 + d := by omega
      simp [his, e2]
  · by_cases his : 16 - p ≤ i
    · simp [hi, show ¬(16 - p + (i - (16 - p)) < 16) from by omega]
    · simp [hi, his]

/-- Sandwich bounds: a decoded field lies between its truncation and the
truncation plus one step. -/
theorem trunc_field_bounds (k p d : Nat) (hd : d < 4) (hp : p ≤ 16) :
    lookupVal (minRectVal k p) d ≤ lookupVal k d ∧
    lookupVal k d < lookupVal (minRectVal k p) d + inc p := by
  rw [lookupVal_minRectVal k p d hd hp, Nat.shiftLeft_eq, Nat.shiftRight_eq_div_pow,
      inc_eq]
  constructor
  · exact Nat.div_mul_le_self _ _
  · exact Nat.lt_div_mul_add (Nat.two_pow_pos (16 - p))

/-- Decoding offset 3 of the quadruple write performed in `main` when building
a span rectangle. -/
theorem build_lookup3 (a b c e : Nat) :
    lookupVal (setVal (setVal (setVal (setVal 0 a 3) b 1) c 2) e 0) 3
      = a % 2 ^ 16 := by
  rw [lookupVal_setVal_other _ e 0 3 (by omega) (by omega) (by omega),
      lookupVal_setVal_other _ c 2 3 (by omega) (by omega) (by omega),
      lookupVal_setVal_other _ b 1 3 (by omega) (by omega) (by omega),
      lookupVal_setVal_self _ a 3 (by omega)]

/-- Decoding offset 1 of the quadruple write performed in `main`. -/
theorem build_lookup1 (a b c e : Nat) :
    lookupVal (setVal (setVal (setVal (setVal 0 a 3) b 1) c 2) e 0) 1
      = b % 2 ^ 16 := by
  rw [lookupVal_setVal_other _ e 0 1 (by omega) (by omega) (by omega),
      lookupVal_setVal_other _ c 2 1 (by omega) (by omega) (by omega),
      lookupVal_setVal_self _ b 1 (by omega)]

/-- Decoding offset 2 of the quadruple write performed in `main`. -/
theorem build_lookup2 (a b c e : Nat) :
    lookupVal (setVal (setVal (setVal (setVal 0 a 3) b 1) c 2) e 0) 2
      = c % 2 ^ 16 := by
  rw [lookupVal_setVal_other _ e 0 2 (by omega) (by omega) (by omega),
      lookupVal_setVal_self _ c 2 (by omega)]

/-- Decoding offset 0 of the quadruple write performed in `main`. -/
theorem build_lookup0 (a b c e : Nat) :
    lookupVal (setVal (setVal (setVal (setVal 0 a 3) b 1) c 2) e 0) 0
      = e % 2 ^ 16 := by
  rw [lookupVal_setVal_self _ e 0 (by omega)]

/-- The x0 field of the minimum span rectangle. -/
theorem minSpanRect_X0 (k p : Nat) :
    (minSpanRect k p).X0 = (lookupVal (minRectVal k p) 3 + inc p) % 2 ^ 16 := by
  simp only [minSpanRect, RectHash.SetX0, RectHash.SetY0, RectHash.SetX1,
    RectHash.SetY1, RectHash.X0, RectHash.X1, RectHash.Y0, RectHash.Y1]
  exact build_lookup3 _ _ _ _

/-- The x1 field of the minimum span rectangle. -/
theorem minSpanRect_X1 (k p : Nat) :
    (minSpanRect k p).X1 = lookupVal (minRectVal k p) 2 := by
  simp only [minSpanRect, RectHash.SetX0, RectHash.SetY0, RectHash.SetX1,
    RectHash.SetY1, RectHash.X0, RectHash.X1, RectHash.Y0, RectHash.Y1]
  rw [build_lookup2]
  exact Nat.mod_eq_of_lt (lookupVal_lt _ _)

/-- The y0 field of the minimum span rectangle. -/
theorem minSpanRect_Y0 (k p : Nat) :
    (minSpanRect k p).Y0 = (lookupVal (minRectVal k p) 1 + inc p) % 2 ^ 16 := by
  simp only [minSpanRect, RectHash.SetX0, RectHash.SetY0, RectHash.SetX1,
    RectHash.SetY1, RectHash.X0, RectHash.X1, RectHash.Y0, RectHash.Y1]
  exact build_lookup1 _ _ _ _

/-- The y1 field of the minimum span rectangle. -/
theorem minSpanRect_Y1 (k p : Nat) :
    (minSpanRect k p).Y1 = lookupVal (minRectVal k p) 0 := by
  simp only [minSpanRect, RectHash.SetX0, RectHash.SetY0, RectHash.SetX1,
    RectHash.SetY1, RectHash.X0, RectHash.X1, RectHash.Y0, RectHash.Y1]
  rw [build_lookup0]
  exact Nat.mod_eq_of_lt (lookupVal_lt _ _)

/-- The x0 field of the maximum span rectangle. -/
theorem maxSpanRect_X0 (k p : Nat) :
    (maxSpanRect k p).X0 = lookupVal (minRectVal k p) 3 := by
  simp only [maxSpanRect, RectHash.SetX0, RectHash.SetY0, RectHash.SetX1,
    RectHash.SetY1, RectHash.X0, RectHash.X1, RectHash.Y0, RectHash.Y1]
  rw [build_lookup3]
  exact Nat.mod_eq_of_lt (lookupVal_lt _ _)

/-- The x1 field of the maximum span rectangle. -/
theorem maxSpanRect_X1 (k p : Nat) :
    (maxSpanRect k p).X1 = (lookupVal (minRectVal k p) 2 + inc p) % 2 ^ 16 := by
  simp only [maxSpanRect, RectHash.SetX0, RectHash.SetY0, RectHash.SetX1,
    RectHash.SetY1, RectHash.X0, RectHash.X1, RectHash.Y0, RectHash.Y1]
  exact build_lookup2 _ _ _ _

/-- The y0 field of the maximum span rectangle. -/
theorem maxSpanRect_Y0 (k p : Nat) :
    (maxSpanRect k p).Y0 = lookupVal (minRectVal k p) 1 := by
  simp only [maxSpanRect, RectHash.SetX0, RectHash.SetY0, RectHash.SetX1,
    RectHash.SetY1, RectHash.X0, RectHash.X1, RectHash.Y0, RectHash.Y1]
  rw [build_lookup1]
  exact Nat.mod_eq_of_lt (lookupVal_lt _ _)

/-- The y1 field of the maximum span rectangle. -/
theorem maxSpanRect_Y1 (k p : Nat) :
    (maxSpanRect k p).Y1 = (lookupVal (minRectVal k p) 0 + inc p) % 2 ^ 16 := by
  simp only [maxSpanRect, RectHash.SetX0, RectHash.SetY0, RectHash.SetX1,
    RectHash.SetY1, RectHash.X0, RectHash.X1, RectHash.Y0, RectHash.Y1]
  exact build_lookup0 _ _ _ _

/-- Under the no-overflow side condition all four per-axis gaps equal the
step `inc q`. -/
theorem gaps_eq_inc (k q : Nat) (h : noOverflow k q) :
    gapX0 k q = (inc q : ℤ) ∧ gapX1 k q = (inc q : ℤ) ∧
    gapY0 k q = (inc q : ℤ) ∧ gapY1 k q = (inc q : ℤ) := by
  obtain ⟨h3, h2, h1, h0⟩ := h
  unfold gapX0 gapX1 gapY0 gapY1
  rw [minSpanRect_X0, maxSpanRect_X0, minSpanRect_X1, maxSpanRect_X1,
      minSpanRect_Y0, maxSpanRect_Y0, minSpanRect_Y1, maxSpanRect_Y1,
      Nat.mod_eq_of_lt h3, Nat.mod_eq_of_lt h2, Nat.mod_eq_of_lt h1,
      Nat.mod_eq_of_lt h0]
  push_cast
  omega

/-- Claim C1: round-trip of the codec. For every dimension offset `d < 4`,
every prior 64-bit key `k`, and every value `v` in `[0, 2^16 - 1]`, decoding
offset `d` of the key produced by encoding `v` at offset `d` into `k` returns
exactly `v`. -/
theorem claim_c1_roundtrip (k v d : Nat) (hd : d < 4) (hk : k < 2 ^ 64)
    (hv : v ≤ 2 ^ 16 - 1) :
    lookupVal (setVal k v d) d = v := by
  rw [lookupVal_setVal_self k v d hd]
  exact Nat.mod_eq_of_lt (by omega)

/-- Witness for C1 at the edge value `v = 2^16 - 1 = 65535`, prior key 0,
offset 3. -/
theorem claim_c1_roundtrip_witness :
    (3 : Nat) < 4 ∧ (0 : Nat) < 2 ^ 64 ∧ (65535 : Nat) ≤ 2 ^ 16 - 1 ∧
    lookupVal (setVal 0 65535 3) 3 = 65535 :=
  ⟨by decide, by decide, by decide,
    claim_c1_roundtrip 0 65535 3 (by decide) (by decide) (by decide)⟩

/-- Claim C2: key truncation decomposes per dimension. Clearing the low
`(16 - p) * 4` bits of the key and then decoding offset `d` yields the same
value as decoding offset `d` first and then clearing its low `16 - p` bits. -/
theorem claim_c2_truncation_decomposes (k p d : Nat) (hk : k < 2 ^ 64)
    (hp : p ≤ 16) (hd : d < 4) :
    lookupVal (minRectVal k p) d = (lookupVal k d >>> (16 - p)) <<< (16 - p) :=
  lookupVal_minRectVal k p d hd hp

/-- Witness for C2 at key `0x0123456789ABCDEF`, precision 4, offset 2. -/
theorem claim_c2_truncation_decomposes_witness :
    (81985529216486895 : Nat) < 2 ^ 64 ∧ (4 : Nat) ≤ 16 ∧ (2 : Nat) < 4 ∧
    lookupVal (minRectVal 81985529216486895 4) 2
      = (lookupVal 81985529216486895 2 >>> (16 - 4)) <<< (16 - 4) :=
  ⟨by decide, by decide, by decide,
    claim_c2_truncation_decomposes 81985529216486895 4 2 (by decide) (by decide)
      (by decide)⟩

/-- Claim C5: dimension isolation (frame property). Encoding a value at offset
`d` does not change the decoded value at any other offset `d'`. -/
theorem claim_c5_dimension_isolation (k v d d' : Nat) (hk : k < 2 ^ 64)
    (hd : d < 4) (hd' : d' < 4) (hne : d ≠ d') :
    lookupVal (setVal k v d) d' = lookupVal k d' :=
  lookupVal_setVal_other k v d d' hd hd' (Ne.symm hne)

/-- Witness for C5: writing offset 2 of key 123456789 leaves offset 3
unchanged. -/
theorem claim_c5_dimension_isolation_witness :
    (123456789 : Nat) < 2 ^ 64 ∧ (2 : Nat) < 4 ∧ (3 : Nat) < 4 ∧ (2 : Nat) ≠ 3 ∧
    lookupVal (setVal 123456789 999 2) 3 = lookupVal 123456789 3 :=
  ⟨by decide, by decide, by decide, by decide,
    claim_c5_dimension_isolation 123456789 999 2 3 (by decide) (by decide)
      (by decide) (by decide)⟩

/-- Claim C6: silent truncation of oversized field values. Encoding a value
`v ≥ 2^16` at offset `d` and decoding it back yields `v mod 2^16`; the excess
high bits are dropped without any error. -/
theorem claim_c6_silent_truncation (k v d : Nat) (hd : d < 4) (hv : 2 ^ 16 ≤ v) :
    lookupVal (setVal k v d) d = v % 2 ^ 16 :=
  lookupVal_setVal_self k v d hd

/-- Witness for C6 at the value 70000 from the spec, which decodes as
`70000 mod 65536 = 4464`. -/
theorem claim_c6_silent_truncation_witness :
    (0 : Nat) < 4 ∧ (2 : Nat) ^ 16 ≤ 70000 ∧
    lookupVal (setVal 0 70000 0) 0 = 70000 % 2 ^ 16 ∧
    (70000 : Nat) % 2 ^ 16 = 4464 :=
  ⟨by decide, by decide, claim_c6_silent_truncation 0 70000 0 (by decide) (by decide),
    by decide⟩

/-- Claim C9: implicit get-then-set identity. Re-encoding the value decoded at
offset `d` back into the same 64-bit key leaves the key unchanged. -/
theorem claim_c9_get_then_set (k d : Nat) (hk : k < 2 ^ 64) (hd : d < 4) :
    setVal k (lookupVal k d) d = k := by
  apply Nat.eq_of_testBit_eq
  intro j
  rw [testBit_setVal _ _ _ hd]
  by_cases hj : j % 4 = d ∧ j / 4 < 16
  · rw [if_pos hj, testBit_lookupVal, show j / 4 * 4 + d = j from by omega]
    simp [hj.2]
  · rw [if_neg hj]
    by_cases h64 : j < 64
    · simp [h64]
    · have hzero : k.testBit j = false :=
        Nat.testBit_lt_two_pow
          (lt_of_lt_of_le hk (Nat.pow_le_pow_right (by omega) (by omega)))
      simp [h64, hzero]

/-- Witness for C9 at key `0x0123456789ABCDEF`, offset 1. -/
theorem claim_c9_get_then_set_witness :
    (81985529216486895 : Nat) < 2 ^ 64 ∧ (1 : Nat) < 4 ∧
    setVal 81985529216486895 (lookupVal 81985529216486895 1) 1
      = 81985529216486895 :=
  ⟨by decide, by decide, claim_c9_get_then_set 81985529216486895 1 (by decide) (by decide)⟩

/-- Claim C10: implicit decode range invariant. A decoded field always fits in
16 bits regardless of the key's contents, and hence so does each of the
accessors X0, X1, Y0, Y1. -/
theorem claim_c10_decode_range (k d : Nat) (r : RectHash) :
    lookupVal k d ≤ 2 ^ 16 - 1 ∧ r.X0 ≤ maxDimVal ∧ r.X1 ≤ maxDimVal ∧
    r.Y0 ≤ maxDimVal ∧ r.Y1 ≤ maxDimVal := by
  simp only [maxDimVal_eq, RectHash.X0, RectHash.X1, RectHash.Y0, RectHash.Y1]
  have h0 := lookupVal_lt k d
  have h1 := lookupVal_lt r.Val 3
  have h2 := lookupVal_lt r.Val 2
  have h3 := lookupVal_lt r.Val 1
  have h4 := lookupVal_lt r.Val 0
  omega

/-- Counterexample to claim C3 as stated: for the rectangle whose x0 field is
`0xF000 = 61440` at precision 4, the truncated x0 field is 61440 but
`61440 + inc = 2^16` wraps to 0 when re-encoded, so the minimum span
rectangle's x0 is 0, strictly below the truncated key's x0. -/
theorem claim_c3_counterexample :
    ¬ ((minSpanRect (setVal 0 61440 3) 4).X0
          ≥ (RectHash.mk (minRectVal (setVal 0 61440 3) 4)).X0 ∧
       (maxSpanRect (setVal 0 61440 3) 4).X1
          ≥ (RectHash.mk (minRectVal (setVal 0 61440 3) 4)).X1 ∧
       (minSpanRect (setVal 0 61440 3) 4).Y0
          ≥ (RectHash.mk (minRectVal (setVal 0 61440 3) 4)).Y0 ∧
       (maxSpanRect (setVal 0 61440 3) 4).Y1
          ≥ (RectHash.mk (minRectVal (setVal 0 61440 3) 4)).Y1) := by
  decide

/-- Claim C3 amended: the containment inequalities hold provided no decoded
field of the truncated key overflows 16 bits when the step `inc p` is added
(the original claim fails exactly when such an overflow wraps a span field
to a small value). -/
theorem claim_c3_amended (k p : Nat) (hp : p ≤ 16) (h : noOverflow k p) :
    (minSpanRect k p).X0 ≥ (RectHash.mk (minRectVal k p)).X0 ∧
    (maxSpanRect k p).X1 ≥ (RectHash.mk (minRectVal k p)).X1 ∧
    (minSpanRect k p).Y0 ≥ (RectHash.mk (minRectVal k p)).Y0 ∧
    (maxSpanRect k p).Y1 ≥ (RectHash.mk (minRectVal k p)).Y1 := by
  obtain ⟨h3, h2, h1, h0⟩ := h
  rw [minSpanRect_X0, maxSpanRect_X1, minSpanRect_Y0, maxSpanRect_Y1,
      Nat.mod_eq_of_lt h3, Nat.mod_eq_of_lt h2, Nat.mod_eq_of_lt h1,
      Nat.mod_eq_of_lt h0]
  simp only [RectHash.X0, RectHash.X1, RectHash.Y0, RectHash.Y1]
  omega

/-- Witness for the amended C3 at key 0, precision 4. -/
theorem claim_c3_amended_witness :
    (4 : Nat) ≤ 16 ∧ noOverflow 0 4 ∧
    ((minSpanRect 0 4).X0 ≥ (RectHash.mk (minRectVal 0 4)).X0 ∧
     (maxSpanRect 0 4).X1 ≥ (RectHash.mk (minRectVal 0 4)).X1 ∧
     (minSpanRect 0 4).Y0 ≥ (RectHash.mk (minRectVal 0 4)).Y0 ∧
     (maxSpanRect 0 4).Y1 ≥ (RectHash.mk (minRectVal 0 4)).Y1) :=
  ⟨by decide, by decide, claim_c3_amended 0 4 (by decide) (by decide)⟩

/-- Counterexample to claim C4 as stated: take R = R' with x0 field
`0xF001 = 61441` and precision 4. The truncated keys trivially agree, yet
R's x0 field 61441 does not lie between the x0 fields of the two span
rectangles, which are 0 (minimum span, wrapped by overflow) and 61440
(maximum span). -/
theorem claim_c4_counterexample :
    minRectVal (setVal 0 61441 3) 4 = minRectVal (setVal 0 61441 3) 4 ∧
    ¬ (min ((minSpanRect (setVal 0 61441 3) 4).X0)
           ((maxSpanRect (setVal 0 61441 3) 4).X0)
          ≤ lookupVal (setVal 0 61441 3) 3 ∧
       lookupVal (setVal 0 61441 3) 3
          ≤ max ((minSpanRect (setVal 0 61441 3) 4).X0)
                ((maxSpanRect (setVal 0 61441 3) 4).X0)) := by
  decide

/-- Claim C4 amended: under the no-overflow side condition, any key whose
truncated key at precision `p` equals that of `k` has every decoded field
bracketed between the corresponding fields of the two span rectangles: on the
low corners the field lies between maxSpan and minSpan, on the high corners
between minSpan and maxSpan. -/
theorem claim_c4_amended (k k' p : Nat) (hp : p ≤ 16)
    (heq : minRectVal k p = minRectVal k' p) (h : noOverflow k p) :
    ((maxSpanRect k p).X0 ≤ lookupVal k' 3 ∧
      lookupVal k' 3 ≤ (minSpanRect k p).X0) ∧
    ((minSpanRect k p).X1 ≤ lookupVal k' 2 ∧
      lookupVal k' 2 ≤ (maxSpanRect k p).X1) ∧
    ((maxSpanRect k p).Y0 ≤ lookupVal k' 1 ∧
      lookupVal k' 1 ≤ (minSpanRect k p).Y0) ∧
    ((minSpanRect k p).Y1 ≤ lookupVal k' 0 ∧
      lookupVal k' 0 ≤ (maxSpanRect k p).Y1) := by
  obtain ⟨h3, h2, h1, h0⟩ := h
  have b3 := trunc_field_bounds k' p 3 (by omega) hp
  have b2 := trunc_field_bounds k' p 2 (by omega) hp
  have b1 := trunc_field_bounds k' p 1 (by omega) hp
  have b0 := trunc_field_bounds k' p 0 (by omega) hp
  rw [minSpanRect_X0, maxSpanRect_X0, minSpanRect_X1, maxSpanRect_X1,
      minSpanRect_Y0, maxSpanRect_Y0, minSpanRect_Y1, maxSpanRect_Y1,
      Nat.mod_eq_of_lt h3, Nat.mod_eq_of_lt h2, Nat.mod_eq_of_lt h1,
      Nat.mod_eq_of_lt h0, heq]
  omega

/-- Witness for the amended C4 at keys 0 and 0, precision 4. -/
theorem claim_c4_amended_witness :
    (4 : Nat) ≤ 16 ∧ minRectVal 0 4 = minRectVal 0 4 ∧ noOverflow 0 4 ∧
    (((maxSpanRect 0 4).X0 ≤ lookupVal 0 3 ∧
       lookupVal 0 3 ≤ (minSpanRect 0 4).X0) ∧
     ((minSpanRect 0 4).X1 ≤ lookupVal 0 2 ∧
       lookupVal 0 2 ≤ (maxSpanRect 0 4).X1) ∧
     ((maxSpanRect 0 4).Y0 ≤ lookupVal 0 1 ∧
       lookupVal 0 1 ≤ (minSpanRect 0 4).Y0) ∧
     ((minSpanRect 0 4).Y1 ≤ lookupVal 0 0 ∧
       lookupVal 0 0 ≤ (maxSpanRect 0 4).Y1)) :=
  ⟨by decide, by decide, by decide,
    claim_c4_amended 0 0 4 (by decide) (by decide) (by decide)⟩

/-- Counterexample to claim C7 as stated: at key 0 with precisions
`p' = 0 < p = 1`, every field of the truncated key is 0 and the step at
precision 0 is `2^16`, which wraps to 0 when re-encoded; all four per-axis
gaps are 0 at precision 0 but 32768 at precision 1, so decreasing the
precision shrinks the gap. -/
theorem claim_c7_counterexample :
    ¬ (gapX0 0 0 ≥ gapX0 0 1 ∧ gapX1 0 0 ≥ gapX1 0 1 ∧
       gapY0 0 0 ≥ gapY0 0 1 ∧ gapY1 0 0 ≥ gapY1 0 1) := by
  decide

/-- Claim C7 amended: under the no-overflow side condition at both precisions,
the per-axis gap between the two span rectangles at the coarser precision
`p' < p` is at least the gap at precision `p` (each gap equals the step
`2^(16 - precisionBits)`, which grows as precision decreases). -/
theorem claim_c7_amended (k p p' : Nat) (hlt : p' < p) (hp : p ≤ 16)
    (h' : noOverflow k p') (h : noOverflow k p) :
    gapX0 k p' ≥ gapX0 k p ∧ gapX1 k p' ≥ gapX1 k p ∧
    gapY0 k p' ≥ gapY0 k p ∧ gapY1 k p' ≥ gapY1 k p := by
  obtain ⟨g3, g2, g1, g0⟩ := gaps_eq_inc k p' h'
  obtain ⟨f3, f2, f1, f0⟩ := gaps_eq_inc k p h
  rw [g3, g2, g1, g0, f3, f2, f1, f0]
  have hmono : inc p ≤ inc p' := by
    rw [inc_eq, inc_eq]
    exact Nat.pow_le_pow_right (by omega) (by omega)
  have hz : (inc p : ℤ) ≤ (inc p' : ℤ) := by exact_mod_cast hmono
  exact ⟨hz, hz, hz, hz⟩

/-- Witness for the amended C7 at key 0, precisions 4 and 8. -/
theorem claim_c7_amended_witness :
    (4 : Nat) < 8 ∧ (8 : Nat) ≤ 16 ∧ noOverflow 0 4 ∧ noOverflow 0 8 ∧
    (gapX0 0 4 ≥ gapX0 0 8 ∧ gapX1 0 4 ≥ gapX1 0 8 ∧
     gapY0 0 4 ≥ gapY0 0 8 ∧ gapY1 0 4 ≥ gapY1 0 8) :=
  ⟨by decide, by decide, by decide, by decide,
    claim_c7_amended 0 8 4 (by decide) (by decide) (by decide) (by decide)⟩

/-- Counterexample to claim C8 as stated: the source's coordinate mapper
divides by `maxDimVal` but never multiplies by the domain maximum 100, so at
`value = 65535` it returns 1, not the 100 demanded by the spec formula
`value / (2^16 - 1) * domainMax`. -/
theorem claim_c8_counterexample : Ratio 65535 ≠ specToCoordinate 65535 := by
  unfold Ratio specToCoordinate
  rw [maxDimVal_eq]
  norm_num

/-- Claim C8 amended: the coordinate mapper computes `value / (2^16 - 1)` with
no domain-maximum factor (a ratio in `[0, 1]`), and the round-trip through the
forward mapper approximates `x / 100` — not `x` — with error at most
`1 / 65535` for nonnegative inputs. -/
theorem claim_c8_amended (v : Nat) (x : ℚ) (hx : 0 ≤ x) :
    Ratio v = (v : ℚ) / ((2 : ℚ) ^ 16 - 1) ∧
    abs ( Ratio (Int x) - x / 100) ≤ 1 / 65535 := by
  constructor
  · unfold Ratio
    rw [maxDimVal_eq]
    norm_num
  · have hy : (0 : ℚ) ≤ x / 100 * 65535 := by positivity
    have hfl0 : (0 : ℤ) ≤ ⌊x / 100 * 65535⌋ := Int.floor_nonneg.mpr hy
    have hInt : ((Int x : Nat) : ℚ) = (⌊x / 100 * 65535⌋ : ℚ) := by
      unfold Int
      rw [maxDimVal_eq, show ((2 ^ 16 - 1 : ℕ) : ℚ) = 65535 from by norm_num]
      exact_mod_cast Int.toNat_of_nonneg hfl0
    have hRatio : Ratio (Int x) = (⌊x / 100 * 65535⌋ : ℚ) / 65535 := by
      unfold Ratio
      rw [maxDimVal_eq, show ((2 ^ 16 - 1 : ℕ) : ℚ) = 65535 from by norm_num, hInt]
    rw [hRatio, abs_le]
    have hle := Int.floor_le (x / 100 * 65535)
    have hlt := Int.lt_floor_add_one (x / 100 * 65535)
    constructor
    · linarith
    · linarith

/-- Witness for the amended C8 at `v = 65535` and `x = 50`. -/
theorem claim_c8_amended_witness :
    (0 : ℚ) ≤ 50 ∧
    ( Ratio 65535 = ((65535 : Nat) : ℚ) / ((2 : ℚ) ^ 16 - 1) ∧
      abs ( Ratio (Int 50) - 50 / 100) ≤ 1 / 65535) :=
  ⟨by norm_num, claim_c8_amended 65535 50 (by norm_num)⟩

end ZOrder
